import Mathlib

/-!
Shallow embedding of `src/streamlit_app.py` (ITT localization validator):
timecode codec (`timecode_to_frames`), cue extractor (`extract_itt_data`,
cue-scan part), overlap checker (`check_timecode_overlap`), comparator
(`compare_files`) and corrected-file generator (`generate_corrected_itt`),
together with proofs about them.

Python exceptions (`ValueError` from `int`, unpacking errors) are modelled
by `Option`: `none` is an uncaught exception of the embedded fragment.
-/

namespace ITTValidator

/-- A cue as extracted from an ITT document: `(begin timecode, end timecode,
inner text)`, mirroring the 3-tuples produced by `extract_itt_data`. -/
abbrev Cue := String × String × String

/-! ## Timecode codec: `timecode_to_frames` (source lines 21-23) -/

/-- Numeric value of a decimal digit character, `none` otherwise.
Models the per-character acceptance of Python `int` (ASCII digits;
Python additionally accepts other Unicode decimal digits, which is
irrelevant to the claims, all of which concern ASCII-digit timecodes or
use this same function as the notion of parsability). -/
def digitVal (c : Char) : Option Nat :=
  if c.isDigit then some (c.toNat - 48) else none

/-- Left-to-right accumulation of the value of a digit string. -/
def digitsValAux (acc : Nat) : List Char → Option Nat
  | [] => some acc
  | c :: rest =>
    match digitVal c with
    | some d => digitsValAux (acc * 10 + d) rest
    | none => none

/-- Value of a non-empty, all-digit character list; `none` otherwise. -/
def parseDigits (cs : List Char) : Option Nat :=
  match cs with
  | [] => none
  | _ :: _ => digitsValAux 0 cs

/-- Models Python `int(s)` on a character sequence: an optional single sign
followed by one or more decimal digits (Python also tolerates surrounding
whitespace and underscore group separators; no claim involves such inputs). -/
def pyInt (cs : List Char) : Option Int :=
  match cs with
  | [] => none
  | c :: rest =>
    if c = '-' then (parseDigits rest).map (fun n => -(n : Int))
    else if c = '+' then (parseDigits rest).map (fun n => (n : Int))
    else (parseDigits (c :: rest)).map (fun n => (n : Int))

/-- Python `s.split(sep)` for a one-character separator: splits at every
occurrence of `sep`; the empty string splits to `[[]]`. -/
def splitChar (sep : Char) : List Char → List (List Char)
  | [] => [[]]
  | c :: cs =>
    if c = sep then [] :: splitChar sep cs
    else
      match splitChar sep cs with
      | [] => [[c]]
      | p :: ps => (c :: p) :: ps

/-- `timecode_to_frames` (line 21): `h, m, s, f = map(int, tc.split(":"))`
followed by `(h * 3600 + m * 60 + s) * 30 + f`.  `none` models the
`ValueError` raised when the split does not yield exactly four
integer-parsable parts. -/
def timecode_to_frames (tc : String) : Option Int :=
  match splitChar ':' tc.data with
  | [p1, p2, p3, p4] =>
    match pyInt p1, pyInt p2, pyInt p3, pyInt p4 with
    | some h, some m, some s, some f => some ((h * 3600 + m * 60 + s) * 30 + f)
    | _, _, _, _ => none
  | _ => none

/-! ## Overlap checker: `check_timecode_overlap` (source lines 25-33) -/

/-- Loop body of `check_timecode_overlap`, with the running `prev_end`
state made explicit.  Both timecodes of the current cue are parsed before
the comparison, exactly as in the source. -/
def checkOverlapAux (prev_end : Option Int) : List Cue → Option Bool
  | [] => some false
  | (s, e, _) :: rest =>
    match timecode_to_frames s, timecode_to_frames e with
    | some start_frames, some end_frames =>
      match prev_end with
      | some p =>
        if start_frames < p then some true
        else checkOverlapAux (some end_frames) rest
      | none => checkOverlapAux (some end_frames) rest
    | _, _ => none

/-- `check_timecode_overlap` (line 25): scans the cues in order and returns
`true` at the first cue whose start frame count is strictly below the
previous cue's end frame count. -/
def check_timecode_overlap (itt_data : List Cue) : Option Bool :=
  checkOverlapAux none itt_data

/-! ## Comparator: `compare_files` (source lines 35-50) -/

/-- The per-index test of `compare_files` (lines 43-44), including Python's
left-to-right, short-circuit evaluation of `or`: the end timecodes are not
parsed when the start-frame delta already exceeds 3. -/
def pairDrift (r t : Cue) : Option Bool :=
  match timecode_to_frames r.1, timecode_to_frames t.1 with
  | some a, some b =>
    if 3 < (a - b).natAbs then some true
    else
      match timecode_to_frames r.2.1, timecode_to_frames t.2.1 with
      | some c, some d => some (decide (3 < (c - d).natAbs))
      | _, _ => none
  | _, _ => none

/-- The `for i, ... in enumerate(english_data)` loop of `compare_files`
(lines 39-45): walks the two lists in lockstep, stopping at the end of the
shorter one (`if i >= len(translated_data): break`), collecting the texts of
every drifting pair in order. -/
def collectIssues : List Cue → List Cue → Option (List (String × String))
  | [], _ => some []
  | _ :: _, [] => some []
  | r :: rs, t :: ts =>
    match pairDrift r t with
    | some b =>
      match collectIssues rs ts with
      | some rest => some (if b then (r.2.2, t.2.2) :: rest else rest)
      | none => none
    | none => none

/-- `compare_files` (line 35): returns
`(line_count_match, timecode_issues, extra_lines, missing_lines)`. -/
def compare_files (english_data translated_data : List Cue) :
    Option (Bool × List (String × String) × List Cue × List Cue) :=
  match collectIssues english_data translated_data with
  | some timecode_issues =>
    some (decide (english_data.length = translated_data.length),
          timecode_issues,
          if translated_data.length > english_data.length then
            translated_data.drop english_data.length
          else [],
          if english_data.length > translated_data.length then
            english_data.drop translated_data.length
          else [])
  | none => none

/-! ## Cue extractor: the `re.findall` scan of `extract_itt_data`
(source lines 14-19)

The pattern `<p begin="(\d{2}:\d{2}:\d{2}:\d{2})" end="(\d{2}:\d{2}:\d{2}:\d{2})">(.*?)</p>`
has no variable-width atom other than the non-greedy `(.*?)`, so matching at
a given position is deterministic: the literal pieces and the fixed-width
timecode groups are consumed in order, then the inner group grows one
non-newline character at a time (`.` does not match `'\n'`) until `</p>`
follows.  `re.findall` tries each start position left to right and resumes
after the end of every match (non-overlapping). -/

/-- Consume an exact literal prefix, returning the remaining input. -/
def matchLit : List Char → List Char → Option (List Char)
  | [], cs => some cs
  | _ :: _, [] => none
  | l :: ls, c :: cs => if c = l then matchLit ls cs else none

/-- Consume `\d{2}:\d{2}:\d{2}:\d{2}` (eleven characters), returning the
matched characters and the remaining input. -/
def matchTC (cs : List Char) : Option (List Char × List Char) :=
  match cs with
  | c0 :: c1 :: c2 :: c3 :: c4 :: c5 :: c6 :: c7 :: c8 :: c9 :: c10 :: rest =>
    if c0.isDigit ∧ c1.isDigit ∧ c2 = ':' ∧ c3.isDigit ∧ c4.isDigit ∧ c5 = ':'
        ∧ c6.isDigit ∧ c7.isDigit ∧ c8 = ':' ∧ c9.isDigit ∧ c10.isDigit then
      some ([c0, c1, c2, c3, c4, c5, c6, c7, c8, c9, c10], rest)
    else none
  | _ => none

/-- Consume `(.*?)</p>`: the shortest run of non-newline characters followed
by the literal `</p>`; returns the inner run and the input after `</p>`. -/
def matchInner : List Char → Option (List Char × List Char)
  | [] => none
  | c :: cs =>
    if c = '<' ∧ cs.take 3 = ['/', 'p', '>'] then some ([], cs.drop 3)
    else if c = '\n' then none
    else (matchInner cs).map (fun ir => (c :: ir.1, ir.2))

/-- One attempted match of the cue pattern at the head of the input;
on success returns the extracted cue and the input after the match. -/
def matchAt (cs : List Char) : Option (Cue × List Char) :=
  (matchLit "<p begin=\"".data cs).bind fun r1 =>
    (matchTC r1).bind fun tcr1 =>
      (matchLit "\" end=\"".data tcr1.2).bind fun r3 =>
        (matchTC r3).bind fun tcr2 =>
          (matchLit "\">".data tcr2.2).bind fun r5 =>
            (matchInner r5).map fun ir => ((⟨tcr1.1⟩, ⟨tcr2.1⟩, ⟨ir.1⟩), ir.2)

/-- The left-to-right, non-overlapping scan of `re.findall`, with an
explicit fuel argument (structural recursion): try a match at the current
position; on success emit the cue and resume after the match, otherwise
advance one character.  A fuel of `length + 1` always suffices, since every
step consumes at least one character. -/
def scanFuel (step : List Char → Option (Cue × List Char)) :
    Nat → List Char → List Cue
  | 0, _ => []
  | fuel + 1, cs =>
    match step cs with
    | some (cue, rest) => cue :: scanFuel step fuel rest
    | none =>
      match cs with
      | [] => []
      | _ :: rest => scanFuel step fuel rest

/-- The cue-extraction part of `extract_itt_data` (line 16):
`re.findall(r'<p begin="(\d{2}:..)" end="(..)">(.*?)</p>', content)` on the
decoded document.  (The UTF-8 decode of line 15 is the identity on the
already-decoded `String`; the `xml:lang` search of lines 17-18 is separate
and not needed by any claim.) -/
def extract_itt_cues (content : String) : List Cue :=
  scanFuel matchAt (content.data.length + 1) content.data

/-! ## Generator: `generate_corrected_itt` (source lines 52-57) -/

/-- `generate_corrected_itt` (line 52): the header, one template line per
reference cue (accumulated left to right exactly as the Python `+=` loop
does), and the footer.  The cue's begin/end strings are interpolated
verbatim; its text is discarded. -/
def generate_corrected_itt (english_data : List Cue) : String :=
  (english_data.foldl
    (fun acc c =>
      acc ++ "    <p begin=\"" ++ c.1 ++ "\" end=\"" ++ c.2.1 ++
        "\">TRANSLATED TEXT HERE</p>\n")
    "<?xml version='1.0' encoding='utf-8'?>\n<tt>\n<body>\n")
  ++ "</body>\n</tt>"

/-! ## Specification-side vocabulary

Definitions below phrase the spec's language (frame counts of a cue,
the drift condition, well-formed timecodes, the declarative cue-substring
shape).  They are used in theorem statements and compared against the
source-side definitions above. -/

/-- Both timecodes of a cue parse, i.e. the code can convert the cue to
frame counts without raising. -/
def CueParses (c : Cue) : Prop :=
  (timecode_to_frames c.1).isSome = true ∧ (timecode_to_frames c.2.1).isSome = true

instance (c : Cue) : Decidable (CueParses c) := by unfold CueParses; infer_instance

/-- Start frame count of a cue (meaningful when the timecode parses). -/
def startFrames (c : Cue) : Int := (timecode_to_frames c.1).getD 0

/-- End frame count of a cue (meaningful when the timecode parses). -/
def endFrames (c : Cue) : Int := (timecode_to_frames c.2.1).getD 0

/-- The spec's drift condition on an index-aligned pair: the absolute
start-frame or end-frame difference exceeds 3 frames. -/
def bigDrift (r t : Cue) : Bool :=
  decide (3 < (startFrames r - startFrames t).natAbs) ||
    decide (3 < (endFrames r - endFrames t).natAbs)

/-- The two-digit, zero-padded rendering of a field value below 100. -/
def pad2 (n : Nat) : List Char := [Nat.digitChar (n / 10), Nat.digitChar (n % 10)]

/-- A well-formed `HH:MM:SS:FF` timecode string built from its four field
values (each rendered as two digits). -/
def tcFormat (h m s f : Nat) : String :=
  ⟨pad2 h ++ ':' :: (pad2 m ++ ':' :: (pad2 s ++ ':' :: pad2 f))⟩

/-- `cs` is exactly four two-digit decimal groups separated by colons:
eleven characters, with `':'` at positions 2, 5, 8 and a digit everywhere
else. -/
def isTCShape (cs : List Char) : Bool :=
  cs.length = 11 &&
    (List.range 11).all fun i =>
      if i % 3 = 2 then cs.getD i ' ' = ':' else (cs.getD i ' ').isDigit

/-- Index of the next occurrence of the literal `</p>` in the input
(the spec's notion of "up to the next `</p>`"). -/
def findCloseIdx : List Char → Option Nat
  | [] => none
  | c :: cs =>
    if (c :: cs).take 4 = "</p>".data then some 0
    else (findCloseIdx cs).map (· + 1)

/-- Modelled from the spec's wording of the cue scan: the input starts with
a substring of the shape `<p begin="TC" end="TC">INNER</p>` where each TC is
four two-digit groups separated by colons and INNER is the shortest possible
span up to the next `</p>`.  On success, returns the cue and the input after
the substring. -/
def cueShapeAt (cs : List Char) : Option (Cue × List Char) :=
  if cs.take 10 = "<p begin=\"".data
      ∧ isTCShape ((cs.drop 10).take 11) = true
      ∧ (cs.drop 21).take 7 = "\" end=\"".data
      ∧ isTCShape ((cs.drop 28).take 11) = true
      ∧ (cs.drop 39).take 2 = "\">".data then
    match findCloseIdx (cs.drop 41) with
    | some i =>
      some ((⟨(cs.drop 10).take 11⟩, ⟨(cs.drop 28).take 11⟩, ⟨(cs.drop 41).take i⟩),
            (cs.drop 41).drop (i + 4))
    | none => none
  else none

/-- `cueShapeAt` amended with the restriction the regex's `.` actually
imposes: the INNER span may not contain a newline. -/
def cueShapeAtNoNl (cs : List Char) : Option (Cue × List Char) :=
  match cueShapeAt cs with
  | some (cue, rest) =>
    if cue.2.2.data.all (· ≠ '\n') then some (cue, rest) else none
  | none => none

/-- The claim's cue scan, taken literally: left-to-right, non-overlapping
collection of all substrings accepted by `cueShapeAt`. -/
def cueScanSpec (content : String) : List Cue :=
  scanFuel cueShapeAt (content.data.length + 1) content.data

/-- The amended cue scan: left-to-right, non-overlapping collection of all
substrings accepted by `cueShapeAtNoNl` (INNER must be newline-free). -/
def cueScanSpecNoNewline (content : String) : List Cue :=
  scanFuel cueShapeAtNoNl (content.data.length + 1) content.data

/-- Chained overlap test from a given previous end-frame count: true iff
the first cue starts before `p`, or the rest overlaps when threading each
cue's end frames.  Characterizes `checkOverlapAux` on parseable cues. -/
def overlapFrom (p : Int) : List Cue → Bool
  | [] => false
  | c :: rest => decide (startFrames c < p) || overlapFrom (endFrames c) rest

/-- A sample cue used by concrete witnesses. -/
def sampleCue : Cue := ("00:00:00:00", "00:00:01:00", "x")

/-- A sample cue whose timing drifts 10 frames from `sampleCue`. -/
def sampleCueDrift : Cue := ("00:00:00:10", "00:00:01:10", "y")

end ITTValidator

namespace ITTValidator

/-- The bookkeeping components of a successful `compare_files` result. -/
theorem compare_files_parts (R T : List Cue) (b : Bool)
    (is : List (String × String)) (ex mi : List Cue)
    (h : compare_files R T = some (b, is, ex, mi)) :
    b = decide (R.length = T.length) ∧
      is = (collectIssues R T).getD [] ∧
      ex = (if T.length > R.length then T.drop R.length else []) ∧
      mi = (if R.length > T.length then R.drop T.length else []) := by
  unfold compare_files at h
  rcases hc : collectIssues R T with _ | L
  · rw [hc] at h; exact absurd h (by simp)
  · rw [hc] at h
    simp only [Option.some.injEq, Prod.mk.injEq] at h
    obtain ⟨hb, hi, hex, hmi⟩ := h
    exact ⟨hb.symm, by simpa using hi.symm, hex.symm, hmi.symm⟩

/-- C2: `line_count_match` is length equality, `extra_lines` is the
translated suffix when the translated file is longer, `missing_lines` the
reference suffix when the reference is longer; with reference length 3 and
translated length 5, `extra_lines` has length 2, `missing_lines` is empty
and `line_count_match` is false. -/
theorem compare_files_count_fields :
    (∀ (R T : List Cue) (b : Bool) (is : List (String × String)) (ex mi : List Cue),
        compare_files R T = some (b, is, ex, mi) →
          b = decide (R.length = T.length) ∧
          ex = (if T.length > R.length then T.drop R.length else []) ∧
          mi = (if R.length > T.length then R.drop T.length else []))
    ∧ (∀ (R T : List Cue) (b : Bool) (is : List (String × String)) (ex mi : List Cue),
        R.length = 3 → T.length = 5 → compare_files R T = some (b, is, ex, mi) →
          ex.length = 2 ∧ mi = [] ∧ b = false) := by
  constructor
  · intro R T b is ex mi h
    obtain ⟨hb, _, hex, hmi⟩ := compare_files_parts R T b is ex mi h
    exact ⟨hb, hex, hmi⟩
  · intro R T b is ex mi hR hT h
    obtain ⟨hb, _, hex, hmi⟩ := compare_files_parts R T b is ex mi h
    rw [hR, hT] at hb hex hmi
    subst hb hex hmi
    simp [List.length_drop, hT]

/-- Witness for C2 at reference length 3, translated length 5. -/
theorem compare_files_count_fields_witness :
    (false = decide (([sampleCue, sampleCue, sampleCue] : List Cue).length =
        ([sampleCue, sampleCue, sampleCue, sampleCue, sampleCue] : List Cue).length) ∧
      ([sampleCue, sampleCue] : List Cue) =
        (if ([sampleCue, sampleCue, sampleCue, sampleCue, sampleCue] : List Cue).length >
            ([sampleCue, sampleCue, sampleCue] : List Cue).length then
          ([sampleCue, sampleCue, sampleCue, sampleCue, sampleCue] : List Cue).drop
            ([sampleCue, sampleCue, sampleCue] : List Cue).length
        else []) ∧
      ([] : List Cue) =
        (if ([sampleCue, sampleCue, sampleCue] : List Cue).length >
            ([sampleCue, sampleCue, sampleCue, sampleCue, sampleCue] : List Cue).length then
          ([sampleCue, sampleCue, sampleCue] : List Cue).drop
            ([sampleCue, sampleCue, sampleCue, sampleCue, sampleCue] : List Cue).length
        else [])) ∧
    (([sampleCue, sampleCue] : List Cue).length = 2 ∧ ([] : List Cue) = [] ∧ false = false) := by
  constructor
  · exact compare_files_count_fields.1 [sampleCue, sampleCue, sampleCue]
      [sampleCue, sampleCue, sampleCue, sampleCue, sampleCue]
      false [] [sampleCue, sampleCue] [] (by rfl)
  · exact compare_files_count_fields.2 [sampleCue, sampleCue, sampleCue]
      [sampleCue, sampleCue, sampleCue, sampleCue, sampleCue]
      false [] [sampleCue, sampleCue] [] rfl rfl (by rfl)

/-- C9: a successful comparison has `line_count_match` true exactly when
both `extra_lines` and `missing_lines` are empty, and at most one of the
two is non-empty. -/
theorem compare_files_match_iff_no_extra_missing (R T : List Cue) (b : Bool)
    (is : List (String × String)) (ex mi : List Cue)
    (h : compare_files R T = some (b, is, ex, mi)) :
    ((b = true) ↔ (ex = [] ∧ mi = [])) ∧ (ex = [] ∨ mi = []) := by
  obtain ⟨hb, _, hex, hmi⟩ := compare_files_parts R T b is ex mi h
  subst hb hex hmi
  rcases Nat.lt_trichotomy R.length T.length with hlt | heq | hgt
  · constructor
    · simp only [decide_eq_true_eq]
      constructor
      · intro he; omega
      · rintro ⟨he, -⟩
        rw [if_pos hlt] at he
        have := List.drop_eq_nil_iff.mp he
        omega
    · right; rw [if_neg (by omega)]
  · constructor
    · simp [heq]
    · left; rw [if_neg (by omega)]
  · constructor
    · simp only [decide_eq_true_eq]
      constructor
      · intro he; omega
      · rintro ⟨-, hm⟩
        rw [if_pos hgt] at hm
        have := List.drop_eq_nil_iff.mp hm
        omega
    · left; rw [if_neg (by omega)]

/-- Witness for C9 on a length-1 versus length-2 comparison. -/
theorem compare_files_match_iff_witness :
    ((false = true) ↔ (([] : List Cue) = [] ∧ ([sampleCue] : List Cue) = [])) ∧
      (([] : List Cue) = [] ∨ ([sampleCue] : List Cue) = []) :=
  compare_files_match_iff_no_extra_missing [sampleCue, sampleCue] [sampleCue]
    false [] [] [sampleCue] (by rfl)

end ITTValidator

namespace ITTValidator

/-- On parseable cues, the comparator's per-index test computes the spec's
drift condition. -/
theorem pairDrift_eq_bigDrift (r t : Cue) (hr : CueParses r) (ht : CueParses t) :
    pairDrift r t = some (bigDrift r t) := by
  obtain ⟨hr1, hr2⟩ := hr
  obtain ⟨ht1, ht2⟩ := ht
  obtain ⟨a, ha⟩ := Option.isSome_iff_exists.mp hr1
  obtain ⟨b, hb⟩ := Option.isSome_iff_exists.mp ht1
  obtain ⟨c, hc⟩ := Option.isSome_iff_exists.mp hr2
  obtain ⟨d, hd⟩ := Option.isSome_iff_exists.mp ht2
  unfold pairDrift bigDrift startFrames endFrames
  rw [ha, hb, hc, hd]
  by_cases h : 3 < (a - b).natAbs <;> simp [h]

/-- On parseable pairs, the comparator's loop collects exactly the texts of
the drifting pairs, in order. -/
theorem collectIssues_eq (R : List Cue) : ∀ (T : List Cue),
    (∀ p ∈ R.zip T, CueParses p.1 ∧ CueParses p.2) →
    collectIssues R T =
      some (((R.zip T).filter fun p => bigDrift p.1 p.2).map fun p => (p.1.2.2, p.2.2.2)) := by
  induction R with
  | nil => intro T _; simp [collectIssues]
  | cons r rs ih =>
    intro T hp
    cases T with
    | nil => simp [collectIssues]
    | cons t ts =>
      obtain ⟨hr, ht⟩ := hp (r, t) (by simp)
      have hrec := ih ts (fun p hm => hp p (by simp [hm]))
      simp only [collectIssues]
      rw [pairDrift_eq_bigDrift r t hr ht, hrec]
      by_cases hbd : bigDrift r t <;> simp [hbd, List.filter_cons]

/-- C1: when every index-aligned pair of cues parses, the comparator
returns, and its `timecode_issues` is exactly the ordered list of
`(reference_text, translated_text)` pairs of the index-aligned cues whose
start or end frame counts differ by more than 3 frames (a delta of exactly
3 is not flagged, and every drifting index of the overlap region appears). -/
theorem compare_files_issue_list (R T : List Cue)
    (hp : ∀ p ∈ R.zip T, CueParses p.1 ∧ CueParses p.2) :
    compare_files R T =
      some (decide (R.length = T.length),
            ((R.zip T).filter fun p => bigDrift p.1 p.2).map fun p => (p.1.2.2, p.2.2.2),
            if T.length > R.length then T.drop R.length else [],
            if R.length > T.length then R.drop T.length else []) := by
  unfold compare_files
  rw [collectIssues_eq R T hp]

/-- Witness for C1: a 10-frame drift at index 1 is reported, an aligned
pair at index 0 is not. -/
theorem compare_files_issue_list_witness :
    compare_files [sampleCue, sampleCue] [sampleCue, sampleCueDrift] =
      some (true, [("x", "y")], [], []) :=
  (compare_files_issue_list [sampleCue, sampleCue] [sampleCue, sampleCueDrift]
    (by decide)).trans (by rfl)

/-- On parseable cues, the overlap loop with a known previous end frame
computes `overlapFrom`. -/
theorem checkOverlapAux_parses (cues : List Cue) (hp : ∀ c ∈ cues, CueParses c) :
    ∀ p : Int, checkOverlapAux (some p) cues = some (overlapFrom p cues) := by
  induction cues with
  | nil => intro p; rfl
  | cons c rest ih =>
    intro p
    obtain ⟨h1, h2⟩ := hp c (by simp)
    obtain ⟨a, ha⟩ := Option.isSome_iff_exists.mp h1
    obtain ⟨e, he⟩ := Option.isSome_iff_exists.mp h2
    obtain ⟨cs, ce, ct⟩ := c
    simp only [checkOverlapAux, overlapFrom]
    rw [ha, he]
    have hs : startFrames (cs, ce, ct) = a := by simp [startFrames, ha]
    have hee : endFrames (cs, ce, ct) = e := by simp [endFrames, he]
    rw [hs, hee]
    by_cases hlt : a < p
    · simp [hlt]
    · simp only [if_neg hlt]
      rw [ih (fun x hm => hp x (by simp [hm])) e]
      simp [hlt]

/-- `overlapFrom` from a cue's end frames is the adjacent-pair overlap
condition on the cue sequence. -/
theorem overlapFrom_spec (rest : List Cue) : ∀ c : Cue,
    overlapFrom (endFrames c) rest =
      decide (∃ q ∈ (c :: rest).zip rest, startFrames q.2 < endFrames q.1) := by
  induction rest with
  | nil => intro c; simp [overlapFrom]
  | cons r rs ih =>
    intro c
    simp only [overlapFrom]
    rw [ih r]
    rw [show ((c :: r :: rs).zip (r :: rs)) = (c, r) :: ((r :: rs).zip rs) from rfl]
    rw [show (decide (∃ q ∈ ((c, r) :: ((r :: rs).zip rs)), startFrames q.2 < endFrames q.1)) =
          (decide (startFrames r < endFrames c) ||
            decide (∃ q ∈ (r :: rs).zip rs, startFrames q.2 < endFrames q.1)) from ?_]
    rw [Bool.eq_iff_iff]
    simp only [Bool.or_eq_true, decide_eq_true_eq]
    constructor
    · rintro ⟨q, hq, hlt⟩
      rcases List.mem_cons.mp hq with hq | hq
      · subst hq; exact Or.inl hlt
      · exact Or.inr ⟨q, hq, hlt⟩
    · rintro (h | ⟨q, hq, hlt⟩)
      · exact ⟨(c, r), List.mem_cons_self _ _, h⟩
      · exact ⟨q, List.mem_cons_of_mem _ hq, hlt⟩

/-- C3: when every cue parses, the overlap checker returns exactly the
flag "some cue's start frame count is strictly below the immediately
preceding cue's end frame count" (abutting cues are not flagged; fewer
than two cues give false since there is no adjacent pair). -/
theorem check_timecode_overlap_iff (cues : List Cue) (hp : ∀ c ∈ cues, CueParses c) :
    check_timecode_overlap cues =
      some (decide (∃ q ∈ cues.zip cues.tail, startFrames q.2 < endFrames q.1)) := by
  cases cues with
  | nil => simp [check_timecode_overlap, checkOverlapAux]
  | cons c rest =>
    unfold check_timecode_overlap
    obtain ⟨h1, h2⟩ := hp c (by simp)
    obtain ⟨a, ha⟩ := Option.isSome_iff_exists.mp h1
    obtain ⟨e, he⟩ := Option.isSome_iff_exists.mp h2
    obtain ⟨cs, ce, ct⟩ := c
    simp only [checkOverlapAux]
    rw [ha, he]
    show checkOverlapAux (some e) rest = _
    rw [checkOverlapAux_parses rest (fun x hm => hp x (by simp [hm])) e]
    have hee : e = endFrames (cs, ce, ct) := by simp [endFrames, he]
    rw [hee, overlapFrom_spec rest (cs, ce, ct)]
    rfl

/-- Witness for C3: the spec's overlapping sample (second cue starts 10
frames before the first ends) is flagged. -/
theorem check_timecode_overlap_iff_witness :
    check_timecode_overlap [sampleCue, sampleCueDrift] = some true :=
  (check_timecode_overlap_iff [sampleCue, sampleCueDrift] (by decide)).trans (by decide)

end ITTValidator

namespace ITTValidator

/-! ## Helper lemmas -/

/-- `String.join` of a cons. -/
theorem string_join_cons (s : String) (l : List String) :
    String.join (s :: l) = s ++ String.join l := by
  have aux : ∀ (l : List String) (a b : String),
      List.foldl (fun r t => r ++ t) (a ++ b) l = a ++ List.foldl (fun r t => r ++ t) b l := by
    intro l
    induction l with
    | nil => intro a b; rfl
    | cons x xs ih => intro a b; simp only [List.foldl, String.append_assoc, ih]
  have h2 := aux l s ""
  rw [String.append_empty] at h2
  exact h2

/-- The codec on a string whose split and field parses are known. -/
theorem timecode_formula_aux (tc : String) (p1 p2 p3 p4 : List Char)
    (H M S F : Int)
    (hsplit : splitChar ':' tc.data = [p1, p2, p3, p4])
    (h1 : pyInt p1 = some H) (h2 : pyInt p2 = some M)
    (h3 : pyInt p3 = some S) (h4 : pyInt p4 = some F) :
    timecode_to_frames tc = some ((H * 3600 + M * 60 + S) * 30 + F) := by
  unfold timecode_to_frames
  rw [hsplit]
  simp [h1, h2, h3, h4]

/-- C4: for every timecode string splitting on `:` into exactly four
integer-parsable components `H, M, S, F`, the codec returns the frame count
`(H*3600 + M*60 + S) * 30 + F`; the spec's samples `parse("00:00:01:00") = 30`
and `parse("01:00:00:00") = 108000` are the witness below. -/
theorem timecode_to_frames_formula (tc : String) (p1 p2 p3 p4 : List Char)
    (H M S F : Int)
    (hsplit : splitChar ':' tc.data = [p1, p2, p3, p4])
    (h1 : pyInt p1 = some H) (h2 : pyInt p2 = some M)
    (h3 : pyInt p3 = some S) (h4 : pyInt p4 = some F) :
    timecode_to_frames tc = some ((H * 3600 + M * 60 + S) * 30 + F) :=
  timecode_formula_aux tc p1 p2 p3 p4 H M S F hsplit h1 h2 h3 h4

/-- Witness for C4, at the spec's two sample inputs. -/
theorem timecode_to_frames_formula_witness :
    timecode_to_frames "00:00:01:00" = some 30 ∧
      timecode_to_frames "01:00:00:00" = some 108000 := by
  constructor
  · have h := timecode_to_frames_formula "00:00:01:00"
      ['0', '0'] ['0', '0'] ['0', '1'] ['0', '0'] 0 0 1 0 rfl rfl rfl rfl rfl
    simpa using h
  · have h := timecode_to_frames_formula "01:00:00:00"
      ['0', '1'] ['0', '0'] ['0', '0'] ['0', '0'] 1 0 0 0 rfl rfl rfl rfl rfl
    simpa using h

/-- C8: the codec fails (raises `ValueError`, modelled as `none`) exactly
when the input does not split on `:` into four integer-parsable parts; in
particular it never coerces such an input to a frame count. -/
theorem timecode_to_frames_fails_iff (tc : String) :
    timecode_to_frames tc = none ↔
      ¬ ((splitChar ':' tc.data).length = 4 ∧
          ∀ p ∈ splitChar ':' tc.data, (pyInt p).isSome = true) := by
  unfold timecode_to_frames
  rcases hs : splitChar ':' tc.data with _ | ⟨a, _ | ⟨b, _ | ⟨c, _ | ⟨d, _ | ⟨e, t⟩⟩⟩⟩⟩
  · simp
  · simp
  · simp
  · simp
  · rcases ha : pyInt a with _ | va <;> rcases hb : pyInt b with _ | vb <;>
      rcases hc : pyInt c with _ | vc <;> rcases hd : pyInt d with _ | vd <;>
      simp [ha, hb, hc, hd]
  · simp

end ITTValidator

namespace ITTValidator

/-- C6: the generator's output is exactly the header lines, one template
line per reference cue carrying that cue's begin/end text verbatim, and the
footer; the output is invariant under any change of the cues' text
payloads (the reference text is discarded).  The concrete conjunct is the
spec's sample output. -/
theorem generate_corrected_itt_exact :
    (∀ english_data : List Cue,
        generate_corrected_itt english_data =
          "<?xml version='1.0' encoding='utf-8'?>\n<tt>\n<body>\n" ++
            String.join (english_data.map fun c =>
              "    <p begin=\"" ++ c.1 ++ "\" end=\"" ++ c.2.1 ++
                "\">TRANSLATED TEXT HERE</p>\n") ++
            "</body>\n</tt>")
    ∧ (∀ (english_data : List Cue) (f : Cue → String),
        generate_corrected_itt (english_data.map fun c => (c.1, c.2.1, f c)) =
          generate_corrected_itt english_data)
    ∧ generate_corrected_itt [("00:00:00:00", "00:00:02:00", "Hello")] =
        "<?xml version='1.0' encoding='utf-8'?>\n<tt>\n<body>\n    <p begin=\"00:00:00:00\" end=\"00:00:02:00\">TRANSLATED TEXT HERE</p>\n</body>\n</tt>" := by
  have key : ∀ (l : List Cue) (acc : String),
      l.foldl (fun acc c =>
        acc ++ "    <p begin=\"" ++ c.1 ++ "\" end=\"" ++ c.2.1 ++
          "\">TRANSLATED TEXT HERE</p>\n") acc =
      acc ++ String.join (l.map fun c =>
        "    <p begin=\"" ++ c.1 ++ "\" end=\"" ++ c.2.1 ++
          "\">TRANSLATED TEXT HERE</p>\n") := by
    intro l
    induction l with
    | nil => intro acc; simp [String.join]
    | cons x xs ih =>
      intro acc
      rw [List.map_cons, List.foldl_cons, ih, string_join_cons]
      simp [String.append_assoc]
  refine ⟨?_, ?_, ?_⟩
  · intro english_data
    unfold generate_corrected_itt
    rw [key]
  · intro english_data f
    unfold generate_corrected_itt
    rw [key, key]
    simp [List.map_map, Function.comp_def]
  · rfl

end ITTValidator



namespace ITTValidator

/-! ## Lexical order of well-formed timecodes (C7)

With Mathlib's instances, `<` on `List Char` is the lexicographic order
`List.Lex (· < ·)` and `String.lt_iff_toList_lt` identifies the string
order with it. -/

/-- Inversion for the lexicographic order on a cons pair. -/
theorem lex_cons_inv {a b : Char} {l₁ l₂ : List Char}
    (h : (a :: l₁) < (b :: l₂)) : a < b ∨ (a = b ∧ l₁ < l₂) := by
  cases h with
  | cons h => exact Or.inr ⟨rfl, h⟩
  | rel h => exact Or.inl h

/-- Digit characters compare exactly as their values. -/
theorem digitChar_lt_iff : ∀ a, a < 10 → ∀ b, b < 10 →
    ((Nat.digitChar a < Nat.digitChar b) ↔ a < b) := by decide

/-- Digit rendering is injective below 10. -/
theorem digitChar_inj : ∀ a, a < 10 → ∀ b, b < 10 →
    Nat.digitChar a = Nat.digitChar b → a = b := by decide

/-- Digit-rendering facts: a digit character is a digit, is not a sign or a
colon, and `digitVal` recovers its value. -/
theorem digitChar_facts : ∀ a, a < 10 →
    Nat.digitChar a ≠ '-' ∧ Nat.digitChar a ≠ '+' ∧ Nat.digitChar a ≠ ':' ∧
      (Nat.digitChar a).isDigit = true ∧ digitVal (Nat.digitChar a) = some a := by decide

/-- Lexicographic comparison across a two-digit group: either the values
differ strictly, or they are equal and the comparison continues. -/
theorem pad2_lt {x y : Nat} (hx : x < 100) (hy : y < 100) (r₁ r₂ : List Char)
    (h : (pad2 x ++ r₁) < (pad2 y ++ r₂)) :
    x < y ∨ (x = y ∧ r₁ < r₂) := by
  have hx1 : x / 10 < 10 := by omega
  have hx2 : x % 10 < 10 := by omega
  have hy1 : y / 10 < 10 := by omega
  have hy2 : y % 10 < 10 := by omega
  rcases lex_cons_inv h with h1 | ⟨e1, h'⟩
  · left
    have := (digitChar_lt_iff _ hx1 _ hy1).mp h1
    omega
  · have e1' : x / 10 = y / 10 := digitChar_inj _ hx1 _ hy1 e1
    rcases lex_cons_inv h' with h2 | ⟨e2, h''⟩
    · left
      have := (digitChar_lt_iff _ hx2 _ hy2).mp h2
      omega
    · have e2' : x % 10 = y % 10 := digitChar_inj _ hx2 _ hy2 e2
      right
      exact ⟨by omega, h''⟩

/-- Lexicographic comparison skips an equal separator. -/
theorem colon_lt {r₁ r₂ : List Char} (h : (':' :: r₁) < (':' :: r₂)) :
    r₁ < r₂ := by
  rcases lex_cons_inv h with h1 | ⟨-, h'⟩
  · exact absurd h1 (by decide)
  · exact h'

/-- Unfolding equation for `pyInt` on a non-empty input. -/
theorem pyInt_cons (c : Char) (rest : List Char) :
    pyInt (c :: rest) =
      if c = '-' then (parseDigits rest).map (fun n => -(n : Int))
      else if c = '+' then (parseDigits rest).map (fun n => (n : Int))
      else (parseDigits (c :: rest)).map (fun n => (n : Int)) := rfl

/-- `pyInt` recovers the value of a two-digit rendering. -/
theorem pyInt_pad2 {x : Nat} (hx : x < 100) : pyInt (pad2 x) = some (x : Int) := by
  obtain ⟨hm1, hp1, -, -, hv1⟩ := digitChar_facts (x / 10) (by omega)
  obtain ⟨-, -, -, -, hv2⟩ := digitChar_facts (x % 10) (by omega)
  show pyInt ((x / 10).digitChar :: [(x % 10).digitChar]) = some (x : Int)
  rw [pyInt_cons, if_neg hm1, if_neg hp1]
  have hpd : parseDigits ((x / 10).digitChar :: [(x % 10).digitChar]) =
      some ((0 * 10 + x / 10) * 10 + x % 10) := by
    show digitsValAux 0 ((x / 10).digitChar :: [(x % 10).digitChar]) = _
    simp only [digitsValAux, hv1, hv2]
  rw [hpd]
  show some ((((0 * 10 + x / 10) * 10 + x % 10 : Nat) : Int)) = some ((x : Nat) : Int)
  exact congrArg (fun n : Nat => some ((n : Int))) (by omega)

/-- No colon occurs in a two-digit rendering. -/
theorem pad2_colon_not_mem {x : Nat} (hx : x < 100) : ':' ∉ pad2 x := by
  obtain ⟨-, -, hc1, -, -⟩ := digitChar_facts (x / 10) (by omega)
  obtain ⟨-, -, hc2, -, -⟩ := digitChar_facts (x % 10) (by omega)
  intro hm
  rcases List.mem_cons.mp hm with h | hm2
  · exact hc1 h.symm
  · rcases List.mem_cons.mp hm2 with h | h
    · exact hc2 h.symm
    · cases h

/-- Splitting passes over a separator-free prefix. -/
theorem splitChar_append (sep : Char) : ∀ (xs rest : List Char), sep ∉ xs →
    splitChar sep (xs ++ sep :: rest) = xs :: splitChar sep rest := by
  intro xs
  induction xs with
  | nil => intro rest _; simp [splitChar]
  | cons c cs ih =>
    intro rest hnm
    have hc : ¬ c = sep := fun h => hnm (by simp [h])
    have hcs : sep ∉ cs := fun h => hnm (List.mem_cons_of_mem _ h)
    have ih2 : splitChar sep (cs.append (sep :: rest)) = cs :: splitChar sep rest :=
      ih rest hcs
    simp only [List.cons_append, splitChar, if_neg hc, ih2]

/-- Splitting a separator-free list yields a single part. -/
theorem splitChar_no_sep (sep : Char) : ∀ xs : List Char, sep ∉ xs →
    splitChar sep xs = [xs] := by
  intro xs
  induction xs with
  | nil => intro _; rfl
  | cons c cs ih =>
    intro hnm
    have hc : ¬ c = sep := fun h => hnm (by simp [h])
    have hcs : sep ∉ cs := fun h => hnm (List.mem_cons_of_mem _ h)
    simp only [splitChar, if_neg hc, ih hcs]

/-- The codec on a well-formed rendered timecode: all four fields are
recovered and combined by the frame formula. -/
theorem timecode_to_frames_tcFormat {h m s f : Nat}
    (hh : h < 100) (hm : m < 100) (hs : s < 100) (hf : f < 100) :
    timecode_to_frames (tcFormat h m s f) =
      some (((h * 3600 + m * 60 + s) * 30 + f : Nat) : Int) := by
  have hd : (tcFormat h m s f).data =
      pad2 h ++ ':' :: (pad2 m ++ ':' :: (pad2 s ++ ':' :: pad2 f)) := rfl
  unfold timecode_to_frames
  rw [hd, splitChar_append _ _ _ (pad2_colon_not_mem hh),
    splitChar_append _ _ _ (pad2_colon_not_mem hm),
    splitChar_append _ _ _ (pad2_colon_not_mem hs),
    splitChar_no_sep _ _ (pad2_colon_not_mem hf)]
  show (match pyInt (pad2 h), pyInt (pad2 m), pyInt (pad2 s), pyInt (pad2 f) with
    | some a, some b, some c, some d => some ((a * 3600 + b * 60 + c) * 30 + d)
    | _, _, _, _ => none) = _
  rw [pyInt_pad2 hh, pyInt_pad2 hm, pyInt_pad2 hs, pyInt_pad2 hf]
  show some (((h : Int) * 3600 + (m : Int) * 60 + (s : Int)) * 30 + (f : Int)) = _
  congr 1

/-- Lexical order of two rendered timecodes orders the field tuples
lexicographically. -/
theorem tcFormat_lt_fields {h₁ m₁ s₁ f₁ h₂ m₂ s₂ f₂ : Nat}
    (hh₁ : h₁ < 100) (hm₁ : m₁ < 100) (hs₁ : s₁ < 100) (hf₁ : f₁ < 100)
    (hh₂ : h₂ < 100) (hm₂ : m₂ < 100) (hs₂ : s₂ < 100) (hf₂ : f₂ < 100)
    (hlt : (tcFormat h₁ m₁ s₁ f₁).data < (tcFormat h₂ m₂ s₂ f₂).data) :
    h₁ < h₂ ∨ (h₁ = h₂ ∧ (m₁ < m₂ ∨ (m₁ = m₂ ∧
      (s₁ < s₂ ∨ (s₁ = s₂ ∧ f₁ < f₂))))) := by
  rcases pad2_lt hh₁ hh₂ _ _ hlt with hH | ⟨eH, hlt⟩
  · exact Or.inl hH
  refine Or.inr ⟨eH, ?_⟩
  replace hlt := colon_lt hlt
  rcases pad2_lt hm₁ hm₂ _ _ hlt with hM | ⟨eM, hlt⟩
  · exact Or.inl hM
  refine Or.inr ⟨eM, ?_⟩
  replace hlt := colon_lt hlt
  rcases pad2_lt hs₁ hs₂ _ _ hlt with hS | ⟨eS, hlt⟩
  · exact Or.inl hS
  refine Or.inr ⟨eS, ?_⟩
  replace hlt := colon_lt hlt
  rw [← List.append_nil (pad2 f₁), ← List.append_nil (pad2 f₂)] at hlt
  rcases pad2_lt hf₁ hf₂ _ _ hlt with hF | ⟨-, hbad⟩
  · exact hF
  · cases hbad

/-- Counterexample to C7 as stated: `00:00:00:99` and `00:00:01:00` are
well-formed two-digit timecode strings in lexical order, yet the first
parses to 99 frames and the second to only 30. -/
theorem timecode_lex_monotone_counterexample :
    tcFormat 0 0 0 99 < tcFormat 0 0 1 0 ∧
      timecode_to_frames (tcFormat 0 0 0 99) = some 99 ∧
      timecode_to_frames (tcFormat 0 0 1 0) = some 30 ∧
      ¬ ((99 : Int) ≤ 30) := by
  refine ⟨?_, rfl, rfl, by decide⟩
  rw [String.lt_iff_toList_lt]
  decide

/-- C7 (amended): on well-formed `HH:MM:SS:FF` strings whose fields are in
range (minutes and seconds below 60, frames below 30), lexical order of the
strings implies the parsed frame counts are ordered. -/
theorem timecode_to_frames_monotone (h₁ m₁ s₁ f₁ h₂ m₂ s₂ f₂ : Nat)
    (hh₁ : h₁ ≤ 99) (hm₁ : m₁ ≤ 59) (hs₁ : s₁ ≤ 59) (hf₁ : f₁ ≤ 29)
    (hh₂ : h₂ ≤ 99) (hm₂ : m₂ ≤ 59) (hs₂ : s₂ ≤ 59) (hf₂ : f₂ ≤ 29)
    (hlt : tcFormat h₁ m₁ s₁ f₁ < tcFormat h₂ m₂ s₂ f₂) :
    ∃ a b : Int, timecode_to_frames (tcFormat h₁ m₁ s₁ f₁) = some a ∧
      timecode_to_frames (tcFormat h₂ m₂ s₂ f₂) = some b ∧ a ≤ b := by
  rw [String.lt_iff_toList_lt] at hlt
  have hlt2 : (tcFormat h₁ m₁ s₁ f₁).data < (tcFormat h₂ m₂ s₂ f₂).data := hlt
  have hfields := tcFormat_lt_fields (by omega) (by omega) (by omega) (by omega)
    (by omega) (by omega) (by omega) (by omega) hlt2
  have hnat : (h₁ * 3600 + m₁ * 60 + s₁) * 30 + f₁ ≤
      (h₂ * 3600 + m₂ * 60 + s₂) * 30 + f₂ := by
    rcases hfields with hH | ⟨eH, hM | ⟨eM, hS | ⟨eS, hF⟩⟩⟩ <;> omega
  exact ⟨_, _, timecode_to_frames_tcFormat (by omega) (by omega) (by omega) (by omega),
    timecode_to_frames_tcFormat (by omega) (by omega) (by omega) (by omega),
    by exact_mod_cast hnat⟩

/-- Witness for the amended C7 at `00:00:00:00 < 00:00:01:00`. -/
theorem timecode_to_frames_monotone_witness :
    ∃ a b : Int, timecode_to_frames (tcFormat 0 0 0 0) = some a ∧
      timecode_to_frames (tcFormat 0 0 1 0) = some b ∧ a ≤ b :=
  timecode_to_frames_monotone 0 0 0 0 0 0 1 0
    (by decide) (by decide) (by decide) (by decide)
    (by decide) (by decide) (by decide) (by decide)
    (by rw [String.lt_iff_toList_lt]; decide)

end ITTValidator

namespace ITTValidator

/-! ## Extractor refinement (C5, C10) -/

/-- `matchLit` in positional terms: consumes the literal as a prefix. -/
theorem matchLit_eq (l : List Char) : ∀ cs, matchLit l cs =
    if cs.take l.length = l then some (cs.drop l.length) else none := by
  induction l with
  | nil => intro cs; simp [matchLit]
  | cons a as ih =>
    intro cs
    cases cs with
    | nil => simp [matchLit]
    | cons c cs' =>
      simp only [matchLit, ih, List.length_cons, List.take_succ_cons,
        List.drop_succ_cons, List.cons.injEq]
      by_cases hca : c = a
      · subst hca
        by_cases ht : cs'.take as.length = as <;> simp [ht]
      · simp [hca]

/-- The eleven-character timecode shape, positionally. -/
theorem isTCShape_eleven (c0 c1 c2 c3 c4 c5 c6 c7 c8 c9 c10 : Char) :
    isTCShape [c0, c1, c2, c3, c4, c5, c6, c7, c8, c9, c10] = true ↔
      (c0.isDigit = true ∧ c1.isDigit = true ∧ c2 = ':' ∧ c3.isDigit = true ∧
        c4.isDigit = true ∧ c5 = ':' ∧ c6.isDigit = true ∧ c7.isDigit = true ∧
        c8 = ':' ∧ c9.isDigit = true ∧ c10.isDigit = true) := by
  rw [isTCShape, show List.range 11 = [0, 1, 2, 3, 4, 5, 6, 7, 8, 9, 10] from by decide]
  simp [List.all_cons, List.getD_cons_zero, List.getD_cons_succ]

/-- `matchTC` in positional terms: consumes eleven characters of timecode
shape. -/
theorem matchTC_eq (cs : List Char) :
    matchTC cs = if isTCShape (cs.take 11) = true
      then some (cs.take 11, cs.drop 11) else none := by
  rcases cs with _ | ⟨c0, _ | ⟨c1, _ | ⟨c2, _ | ⟨c3, _ | ⟨c4, _ | ⟨c5, _ | ⟨c6, _ | ⟨c7, _ | ⟨c8, _ | ⟨c9, _ | ⟨c10, rest⟩⟩⟩⟩⟩⟩⟩⟩⟩⟩⟩
  · simp [matchTC, isTCShape]
  · simp [matchTC, isTCShape]
  · simp [matchTC, isTCShape]
  · simp [matchTC, isTCShape]
  · simp [matchTC, isTCShape]
  · simp [matchTC, isTCShape]
  · simp [matchTC, isTCShape]
  · simp [matchTC, isTCShape]
  · simp [matchTC, isTCShape]
  · simp [matchTC, isTCShape]
  · simp [matchTC, isTCShape]
  · rw [show (c0 :: c1 :: c2 :: c3 :: c4 :: c5 :: c6 :: c7 :: c8 :: c9 :: c10 :: rest).take 11 =
        [c0, c1, c2, c3, c4, c5, c6, c7, c8, c9, c10] from rfl,
      show (c0 :: c1 :: c2 :: c3 :: c4 :: c5 :: c6 :: c7 :: c8 :: c9 :: c10 :: rest).drop 11 =
        rest from rfl,
      show matchTC (c0 :: c1 :: c2 :: c3 :: c4 :: c5 :: c6 :: c7 :: c8 :: c9 :: c10 :: rest) =
        (if c0.isDigit ∧ c1.isDigit ∧ c2 = ':' ∧ c3.isDigit ∧ c4.isDigit ∧ c5 = ':'
            ∧ c6.isDigit ∧ c7.isDigit ∧ c8 = ':' ∧ c9.isDigit ∧ c10.isDigit then
          some ([c0, c1, c2, c3, c4, c5, c6, c7, c8, c9, c10], rest)
        else none) from rfl]
    exact if_congr (Iff.trans (by tauto) (isTCShape_eleven _ _ _ _ _ _ _ _ _ _ _).symm) rfl rfl

end ITTValidator

namespace ITTValidator

/-- `matchInner` in positional terms: the inner span runs to the next
`</p>` (if any) and must be newline-free. -/
theorem matchInner_eq : ∀ cs, matchInner cs =
    (match findCloseIdx cs with
     | some i => if ((cs.take i).all fun c => c ≠ '\n') = true
         then some (cs.take i, cs.drop (i + 4)) else none
     | none => none) := by
  intro cs
  induction cs with
  | nil => rfl
  | cons c cs' ih =>
    by_cases hcl : c = '<' ∧ cs'.take 3 = ['/', 'p', '>']
    · have htk : (c :: cs').take 4 = "</p>".data := by
        obtain ⟨h1, h2⟩ := hcl
        subst h1
        rw [show (('<' : Char) :: cs').take 4 = '<' :: cs'.take 3 from rfl, h2]
      have hfc : findCloseIdx (c :: cs') = some 0 := by
        simp [findCloseIdx, htk]
      rw [hfc]
      simp [matchInner, hcl]
    · have hne : ¬ (c :: cs').take 4 = "</p>".data := by
        intro h
        rw [show (c :: cs').take 4 = c :: cs'.take 3 from rfl] at h
        exact hcl (List.cons.inj h)
      have hfc : findCloseIdx (c :: cs') = (findCloseIdx cs').map (· + 1) := by
        rw [show findCloseIdx (c :: cs') =
            (if (c :: cs').take 4 = "</p>".data then some 0
             else (findCloseIdx cs').map (· + 1)) from rfl, if_neg hne]
      by_cases hnl : c = '\n'
      · subst hnl
        rw [hfc]
        rcases h2 : findCloseIdx cs' with _ | i
        · simp [matchInner, hcl]
        · simp [matchInner, hcl, List.take_succ_cons]
      · rw [hfc]
        rcases h2 : findCloseIdx cs' with _ | i
        · simp [matchInner, hcl, hnl, ih, h2]
        · rw [show ((some i).map (· + 1)) = some (i + 1) from rfl]
          simp only [matchInner, if_neg hcl, if_neg hnl, ih, h2]
          by_cases hall : ((cs'.take i).all fun x => x ≠ '\n') = true
          · simp [hall, hnl, List.take_succ_cons, List.all_cons,
              show (i + 1) + 4 = (i + 4) + 1 from rfl, List.drop_succ_cons]
          · simp [hall, hnl, List.take_succ_cons, List.all_cons]

end ITTValidator

namespace ITTValidator

/-- The regex-step matcher agrees with the (amended) declarative shape
matcher at every position. -/
theorem matchAt_eq (cs : List Char) : matchAt cs = cueShapeAtNoNl cs := by
  unfold matchAt cueShapeAtNoNl cueShapeAt
  rw [matchLit_eq, show ("<p begin=\"".data).length = 10 from rfl]
  by_cases h1 : cs.take 10 = "<p begin=\"".data
  · rw [if_pos h1]
    simp only [Option.some_bind]
    rw [matchTC_eq]
    by_cases h2 : isTCShape ((cs.drop 10).take 11) = true
    · rw [if_pos h2]
      simp only [Option.some_bind]
      have e21 : (cs.drop 10).drop 11 = cs.drop 21 := by rw [List.drop_drop]
      rw [e21, matchLit_eq, show ("\" end=\"".data).length = 7 from rfl]
      by_cases h3 : (cs.drop 21).take 7 = "\" end=\"".data
      · rw [if_pos h3]
        simp only [Option.some_bind]
        have e28 : (cs.drop 21).drop 7 = cs.drop 28 := by rw [List.drop_drop]
        rw [e28, matchTC_eq]
        by_cases h4 : isTCShape ((cs.drop 28).take 11) = true
        · rw [if_pos h4]
          simp only [Option.some_bind]
          have e39 : (cs.drop 28).drop 11 = cs.drop 39 := by rw [List.drop_drop]
          rw [e39, matchLit_eq, show ("\">".data).length = 2 from rfl]
          by_cases h5 : (cs.drop 39).take 2 = "\">".data
          · rw [if_pos h5]
            simp only [Option.some_bind]
            have e41 : (cs.drop 39).drop 2 = cs.drop 41 := by rw [List.drop_drop]
            rw [e41, matchInner_eq, if_pos ⟨h1, h2, h3, h4, h5⟩]
            rcases hf : findCloseIdx (cs.drop 41) with _ | i
            · rfl
            · by_cases hall : (((cs.drop 41).take i).all fun c => c ≠ '\n') = true
              · simp [hall]
              · simp [hall]
          · rw [if_neg h5, if_neg (fun hh => h5 hh.2.2.2.2)]; rfl
        · rw [if_neg h4, if_neg (fun hh => h4 hh.2.2.2.1)]; rfl
      · rw [if_neg h3, if_neg (fun hh => h3 hh.2.2.1)]; rfl
    · rw [if_neg h2, if_neg (fun hh => h2 hh.2.1)]; rfl
  · rw [if_neg h1, if_neg (fun hh => h1 hh.1)]; rfl

end ITTValidator

namespace ITTValidator

/-- The scan is determined by the pointwise behaviour of its matcher. -/
theorem scanFuel_congr (step₁ step₂ : List Char → Option (Cue × List Char))
    (hext : ∀ cs, step₁ cs = step₂ cs) : ∀ (fuel : Nat) (cs : List Char),
    scanFuel step₁ fuel cs = scanFuel step₂ fuel cs := by
  intro fuel
  induction fuel with
  | zero => intro cs; rfl
  | succ n ih =>
    intro cs
    simp only [scanFuel]
    rw [← hext cs]
    rcases h : step₁ cs with _ | cr
    · cases cs with
      | nil => rfl
      | cons x rest => exact ih rest
    · show cr.1 :: scanFuel step₁ n cr.2 = cr.1 :: scanFuel step₂ n cr.2
      rw [ih cr.2]

/-- Counterexample to C5 as stated: on a document whose inner text contains
a newline, the code extracts nothing (the regex `.` does not match `'\n'`),
while the literal "shortest span up to the next `</p>`" scan yields a cue. -/
theorem cue_scan_literal_counterexample :
    extract_itt_cues "<p begin=\"00:00:00:00\" end=\"00:00:01:00\">a\nb</p>" = [] ∧
      cueScanSpec "<p begin=\"00:00:00:00\" end=\"00:00:01:00\">a\nb</p>" =
        [("00:00:00:00", "00:00:01:00", "a\nb")] ∧
      extract_itt_cues "<p begin=\"00:00:00:00\" end=\"00:00:01:00\">a\nb</p>" ≠
        cueScanSpec "<p begin=\"00:00:00:00\" end=\"00:00:01:00\">a\nb</p>" :=
  ⟨rfl, rfl, by decide⟩

/-- C5 (amended): the extractor produces exactly the left-to-right,
non-overlapping scan of substrings of the shape
`<p begin="TC" end="TC">INNER</p>` where each TC is four two-digit groups
separated by colons and INNER is the shortest possible newline-free span up
to the next `</p>`, in document order. -/
theorem extract_eq_spec_scan (content : String) :
    extract_itt_cues content = cueScanSpecNoNewline content := by
  unfold extract_itt_cues cueScanSpecNoNewline
  exact scanFuel_congr matchAt cueShapeAtNoNl matchAt_eq _ _

end ITTValidator

namespace ITTValidator

/-- A digit character is not a colon or a sign. -/
theorem isDigit_ne (c : Char) (h : c.isDigit = true) :
    c ≠ ':' ∧ c ≠ '-' ∧ c ≠ '+' :=
  ⟨fun he => absurd (he ▸ h) (by decide),
   fun he => absurd (he ▸ h) (by decide),
   fun he => absurd (he ▸ h) (by decide)⟩

/-- No colon in a two-digit-character list. -/
theorem colon_not_mem_two (a b : Char) (ha : a.isDigit = true)
    (hb : b.isDigit = true) : ':' ∉ ([a, b] : List Char) := by
  intro hm
  rcases List.mem_cons.mp hm with h | hm2
  · exact (isDigit_ne a ha).1 h.symm
  · rcases List.mem_cons.mp hm2 with h | h
    · exact (isDigit_ne b hb).1 h.symm
    · cases h

/-- `pyInt` on two digit characters. -/
theorem pyInt_digits2 (a b : Char) (ha : a.isDigit = true) (hb : b.isDigit = true) :
    pyInt [a, b] = some (((a.toNat - 48) * 10 + (b.toNat - 48) : Nat) : Int) := by
  obtain ⟨-, ha2, ha3⟩ := isDigit_ne a ha
  rw [pyInt_cons, if_neg ha2, if_neg ha3]
  have hva : digitVal a = some (a.toNat - 48) := by simp [digitVal, ha]
  have hvb : digitVal b = some (b.toNat - 48) := by simp [digitVal, hb]
  have hpd : parseDigits [a, b] = some ((0 * 10 + (a.toNat - 48)) * 10 + (b.toNat - 48)) := by
    show digitsValAux 0 [a, b] = _
    simp only [digitsValAux, hva, hvb]
  rw [hpd]
  show some ((((0 * 10 + (a.toNat - 48)) * 10 + (b.toNat - 48) : Nat)) : Int) = _
  exact congrArg (fun n : Nat => some ((n : Int))) (by omega)

/-- The codec succeeds, with a non-negative frame count, on any string of
the eleven-character timecode shape. -/
theorem tcShape_parses (s : String) (hs : isTCShape s.data = true) :
    ∃ n : Nat, timecode_to_frames s = some ((n : Nat) : Int) := by
  rcases hd : s.data with _ | ⟨c0, _ | ⟨c1, _ | ⟨c2, _ | ⟨c3, _ | ⟨c4, _ | ⟨c5, _ | ⟨c6, _ | ⟨c7, _ | ⟨c8, _ | ⟨c9, _ | ⟨c10, rest⟩⟩⟩⟩⟩⟩⟩⟩⟩⟩⟩
  · rw [hd] at hs; exact absurd hs (by simp [isTCShape])
  · rw [hd] at hs; exact absurd hs (by simp [isTCShape])
  · rw [hd] at hs; exact absurd hs (by simp [isTCShape])
  · rw [hd] at hs; exact absurd hs (by simp [isTCShape])
  · rw [hd] at hs; exact absurd hs (by simp [isTCShape])
  · rw [hd] at hs; exact absurd hs (by simp [isTCShape])
  · rw [hd] at hs; exact absurd hs (by simp [isTCShape])
  · rw [hd] at hs; exact absurd hs (by simp [isTCShape])
  · rw [hd] at hs; exact absurd hs (by simp [isTCShape])
  · rw [hd] at hs; exact absurd hs (by simp [isTCShape])
  · rw [hd] at hs; exact absurd hs (by simp [isTCShape])
  · rw [hd] at hs
    have hrest : rest = [] := by
      simp only [isTCShape, Bool.and_eq_true, decide_eq_true_eq] at hs
      obtain ⟨hlen, -⟩ := hs
      simpa using hlen
    subst hrest
    obtain ⟨g0, g1, e2, g3, g4, e5, g6, g7, e8, g9, g10⟩ :=
      (isTCShape_eleven c0 c1 c2 c3 c4 c5 c6 c7 c8 c9 c10).mp hs
    subst e2; subst e5; subst e8
    have hsplit : splitChar ':' [c0, c1, ':', c3, c4, ':', c6, c7, ':', c9, c10] =
        [[c0, c1], [c3, c4], [c6, c7], [c9, c10]] := by
      rw [show ([c0, c1, ':', c3, c4, ':', c6, c7, ':', c9, c10] : List Char) =
          [c0, c1] ++ ':' :: ([c3, c4] ++ ':' :: ([c6, c7] ++ ':' :: [c9, c10])) from rfl,
        splitChar_append _ _ _ (colon_not_mem_two c0 c1 g0 g1),
        splitChar_append _ _ _ (colon_not_mem_two c3 c4 g3 g4),
        splitChar_append _ _ _ (colon_not_mem_two c6 c7 g6 g7),
        splitChar_no_sep _ _ (colon_not_mem_two c9 c10 g9 g10)]
    have hsplit2 : splitChar ':' s.data = [[c0, c1], [c3, c4], [c6, c7], [c9, c10]] := by
      rw [hd]; exact hsplit
    have hres := timecode_formula_aux s [c0, c1] [c3, c4] [c6, c7] [c9, c10]
      _ _ _ _ hsplit2
      (pyInt_digits2 c0 c1 g0 g1) (pyInt_digits2 c3 c4 g3 g4)
      (pyInt_digits2 c6 c7 g6 g7) (pyInt_digits2 c9 c10 g9 g10)
    refine ⟨(((c0.toNat - 48) * 10 + (c1.toNat - 48)) * 3600 +
      ((c3.toNat - 48) * 10 + (c4.toNat - 48)) * 60 +
      ((c6.toNat - 48) * 10 + (c7.toNat - 48))) * 30 +
      ((c9.toNat - 48) * 10 + (c10.toNat - 48)), ?_⟩
    rw [hres]
    congr 1

end ITTValidator

namespace ITTValidator

/-- A successful match always yields timecodes of the eleven-character
shape. -/
theorem matchAt_shape {cs : List Char} {cue : Cue} {rest : List Char}
    (h : matchAt cs = some (cue, rest)) :
    isTCShape cue.1.data = true ∧ isTCShape cue.2.1.data = true := by
  unfold matchAt at h
  rcases h1 : matchLit "<p begin=\"".data cs with _ | r1 <;> rw [h1] at h
  · simp at h
  simp only [Option.some_bind] at h
  rcases h2 : matchTC r1 with _ | tcr1 <;> rw [h2] at h
  · simp at h
  simp only [Option.some_bind] at h
  rcases h3 : matchLit "\" end=\"".data tcr1.2 with _ | r3 <;> rw [h3] at h
  · simp at h
  simp only [Option.some_bind] at h
  rcases h4 : matchTC r3 with _ | tcr2 <;> rw [h4] at h
  · simp at h
  simp only [Option.some_bind] at h
  rcases h5 : matchLit "\">".data tcr2.2 with _ | r5 <;> rw [h5] at h
  · simp at h
  simp only [Option.some_bind] at h
  rcases h6 : matchInner r5 with _ | ir <;> rw [h6] at h
  · simp at h
  simp only [Option.map_some', Option.some.injEq] at h
  have hcue : cue = (⟨tcr1.1⟩, ⟨tcr2.1⟩, ⟨ir.1⟩) := (Prod.mk.inj h).1.symm
  rw [matchTC_eq] at h2 h4
  by_cases s2 : isTCShape (r1.take 11) = true
  · rw [if_pos s2] at h2
    by_cases s4 : isTCShape (r3.take 11) = true
    · rw [if_pos s4] at h4
      have e2 : tcr1.1 = r1.take 11 := by rw [← Option.some.inj h2]
      have e4 : tcr2.1 = r3.take 11 := by rw [← Option.some.inj h4]
      rw [hcue]
      refine ⟨?_, ?_⟩
      · show isTCShape tcr1.1 = true
        rw [e2]; exact s2
      · show isTCShape tcr2.1 = true
        rw [e4]; exact s4
    · rw [if_neg s4] at h4; cases h4
  · rw [if_neg s2] at h2; cases h2

/-- Every cue emitted by the scan comes from a successful match, hence its
timecodes have the eleven-character shape. -/
theorem scanFuel_cues_shape : ∀ (fuel : Nat) (cs : List Char) (c : Cue),
    c ∈ scanFuel matchAt fuel cs →
    isTCShape c.1.data = true ∧ isTCShape c.2.1.data = true := by
  intro fuel
  induction fuel with
  | zero => intro cs c h; simp [scanFuel] at h
  | succ n ih =>
    intro cs c h
    simp only [scanFuel] at h
    rcases hm : matchAt cs with _ | cr <;> rw [hm] at h
    · cases cs with
      | nil => simp at h
      | cons x rest => exact ih rest c h
    · have h2 : c = cr.1 ∨ c ∈ scanFuel matchAt n cr.2 := List.mem_cons.mp h
      rcases h2 with rfl | h2
      · exact matchAt_shape (show matchAt cs = some (cr.1, cr.2) by rw [hm])
      · exact ih cr.2 c h2

/-- The comparator returns a value whenever every index-aligned pair of
cues parses. -/
theorem compare_files_isSome (R T : List Cue)
    (hp : ∀ p ∈ R.zip T, CueParses p.1 ∧ CueParses p.2) :
    (compare_files R T).isSome = true := by
  unfold compare_files
  rw [collectIssues_eq R T hp]
  rfl

/-- The overlap checker returns a value whenever every cue parses. -/
theorem check_overlap_isSome (cues : List Cue) (hp : ∀ c ∈ cues, CueParses c) :
    (check_timecode_overlap cues).isSome = true := by
  cases cues with
  | nil => rfl
  | cons c rest =>
    unfold check_timecode_overlap
    obtain ⟨hs1, hs2⟩ := hp c (by simp)
    obtain ⟨a, ha⟩ := Option.isSome_iff_exists.mp hs1
    obtain ⟨e, he⟩ := Option.isSome_iff_exists.mp hs2
    obtain ⟨cs', ce', ct'⟩ := c
    simp only [checkOverlapAux]
    rw [ha, he]
    show (checkOverlapAux (some e) rest).isSome = true
    rw [checkOverlapAux_parses rest (fun x hm => hp x (by simp [hm])) e]
    rfl

/-- C10: every cue produced by the extractor carries begin and end
timecodes of exactly four two-digit groups separated by colons; the codec
succeeds on them with non-negative frame counts, and the overlap checker
and comparator never fail on extracted cue sequences. -/
theorem extractor_output_safe (d₁ d₂ : String) :
    (∀ c ∈ extract_itt_cues d₁,
        isTCShape c.1.data = true ∧ isTCShape c.2.1.data = true ∧
        (∃ n : Int, timecode_to_frames c.1 = some n ∧ 0 ≤ n) ∧
        (∃ n : Int, timecode_to_frames c.2.1 = some n ∧ 0 ≤ n)) ∧
      (check_timecode_overlap (extract_itt_cues d₁)).isSome = true ∧
      (compare_files (extract_itt_cues d₁) (extract_itt_cues d₂)).isSome = true := by
  have hshape : ∀ (d : String), ∀ c ∈ extract_itt_cues d,
      isTCShape c.1.data = true ∧ isTCShape c.2.1.data = true := by
    intro d c hm
    exact scanFuel_cues_shape _ _ c hm
  have hparses : ∀ (d : String), ∀ c ∈ extract_itt_cues d, CueParses c := by
    intro d c hm
    obtain ⟨hs1, hs2⟩ := hshape d c hm
    obtain ⟨n1, hn1⟩ := tcShape_parses c.1 hs1
    obtain ⟨n2, hn2⟩ := tcShape_parses c.2.1 hs2
    exact ⟨by simp [hn1], by simp [hn2]⟩
  refine ⟨?_, ?_, ?_⟩
  · intro c hm
    obtain ⟨hs1, hs2⟩ := hshape d₁ c hm
    obtain ⟨n1, hn1⟩ := tcShape_parses c.1 hs1
    obtain ⟨n2, hn2⟩ := tcShape_parses c.2.1 hs2
    exact ⟨hs1, hs2, ⟨(n1 : Int), hn1, Int.natCast_nonneg n1⟩,
      ⟨(n2 : Int), hn2, Int.natCast_nonneg n2⟩⟩
  · exact check_overlap_isSome _ (hparses d₁)
  · refine compare_files_isSome _ _ ?_
    intro p hm
    obtain ⟨x, y⟩ := p
    have := List.of_mem_zip hm
    exact ⟨hparses d₁ x this.1, hparses d₂ y this.2⟩

/-- Witness for C10 on two concrete one-cue documents. -/
theorem extractor_output_safe_witness :
    (check_timecode_overlap
        (extract_itt_cues "<p begin=\"00:00:00:00\" end=\"00:00:01:00\">Hi</p>")).isSome = true ∧
      (compare_files
        (extract_itt_cues "<p begin=\"00:00:00:00\" end=\"00:00:01:00\">Hi</p>")
        (extract_itt_cues "<p begin=\"00:00:00:02\" end=\"00:00:01:02\">Salut</p>")).isSome = true :=
  ⟨(extractor_output_safe "<p begin=\"00:00:00:00\" end=\"00:00:01:00\">Hi</p>"
      "<p begin=\"00:00:00:02\" end=\"00:00:01:02\">Salut</p>").2.1,
   (extractor_output_safe "<p begin=\"00:00:00:00\" end=\"00:00:01:00\">Hi</p>"
      "<p begin=\"00:00:00:02\" end=\"00:00:01:02\">Salut</p>").2.2⟩

end ITTValidator
